import Mathlib

/-!
# VisualMem — shallow embedding and verification

Shallow embedding of the ingestion and retrieval pipelines of the
VisualMem repository (`gui_backend_server.py`, `gui/workers/record_worker.py`,
`config.py`), together with theorems settling the frozen claims about them.

Conventions:
* Python `datetime` instants are embedded as integers (`ℤ`) where only their
  order matters (time-window fusion) and as an explicit record of calendar
  fields where formatting matters (frame-id allocation).
* Python `None` becomes `Option.none`; truthiness of a `datetime` value is
  exactly presence, and truthiness of a string is non-emptiness.
* External collaborators (LanceDB, SQLite, the OCR engine, CLIP) are
  parameters of the embedded functions, following their declared interfaces.
* Exceptions are embedded with `Except`; caught exceptions turn into logged
  events in an explicit log.
* Loops whose termination the source does not guarantee are embedded with an
  explicit fuel parameter.
-/

namespace VisualMem

/-! ## Search-result merge and dedup (`query_rag_with_time`, lines 721–735)

The handler accumulates dense hits first, then sparse hits, skipping any hit
whose `frame_id` is falsy (empty) or already seen:

```python
frames: List[Dict] = []
seen = set()
for r in dense_results:
    fid = r.get("frame_id")
    if not fid or fid in seen:
        continue
    seen.add(fid)
    frames.append(r)
for r in sparse_results:
    ... same loop ...
```
-/

/-- A retrieval hit as used by the merge step: its identifier and the
`_from_sparse` tag the sparse pass attaches (dense hits carry `false`). -/
structure SearchResult where
  frame_id : String
  from_sparse : Bool
  deriving DecidableEq, Repr

/-- One pass of the merge loop of `query_rag_with_time`: iterate over `rs`,
skipping results with an empty or already-seen `frame_id`, appending the rest
to `frames` and recording their ids in `seen`. -/
def mergeLoop (frames : List SearchResult) (seen : List String) :
    List SearchResult → List SearchResult × List String
  | [] => (frames, seen)
  | r :: rs =>
    if r.frame_id = "" ∨ r.frame_id ∈ seen then
      mergeLoop frames seen rs
    else
      mergeLoop (frames ++ [r]) (r.frame_id :: seen) rs

/-- Merge and dedup of `query_rag_with_time`: the dense loop runs first with
empty accumulators, the sparse loop continues with the same `frames`/`seen`. -/
def mergeDedup (dense_results sparse_results : List SearchResult) :
    List SearchResult :=
  let p := mergeLoop [] [] dense_results
  (mergeLoop p.1 p.2 sparse_results).1

/-- Recursive form of one merge pass starting from empty output: keeps the
first hit of each nonempty identifier not in `seen`. -/
def dedupFrames (seen : List String) : List SearchResult → List SearchResult
  | [] => []
  | r :: rs =>
    if r.frame_id = "" ∨ r.frame_id ∈ seen then
      dedupFrames seen rs
    else
      r :: dedupFrames (r.frame_id :: seen) rs

/-! ## Time-window fusion (`query_rag_with_time`, lines 638–663)

`start_time`/`end_time` start as the explicit bounds; when the LLM returned a
time range, each bound is combined by `max`/`min` over the present bounds, and
an inverted combined window falls back to the explicit window when any
explicit bound exists, else to the LLM window. Python truthiness of a
`datetime` is presence, embedded as `Option.isSome`. -/

/-- Combination of the start bounds, mirroring the `if/elif` ladder:
`max` when both present, the present one otherwise, unchanged (the explicit
default) when neither is present. -/
def combineStart (explicit_start llm_start : Option ℤ) : Option ℤ :=
  match explicit_start, llm_start with
  | some a, some b => some (max a b)
  | some a, none => some a
  | none, some b => some b
  | none, none => none

/-- Combination of the end bounds: `min` when both present. -/
def combineEnd (explicit_end llm_end : Option ℤ) : Option ℤ :=
  match explicit_end, llm_end with
  | some a, some b => some (min a b)
  | some a, none => some a
  | none, some b => some b
  | none, none => none

/-- Step 4 of `query_rag_with_time`: fuse the explicit window with the
LLM-inferred window (`none` when `rewrite_and_time` failed or returned no
range). When the fused window is inverted, keep the explicit window if any
explicit bound is present, else keep the LLM window. -/
def fuseTimeWindow (explicit_start explicit_end : Option ℤ)
    (llm_time_range : Option (Option ℤ × Option ℤ)) : Option ℤ × Option ℤ :=
  match llm_time_range with
  | none => (explicit_start, explicit_end)
  | some (llm_start, llm_end) =>
    match combineStart explicit_start llm_start, combineEnd explicit_end llm_end with
    | some s, some e =>
      if s > e then
        if explicit_start.isSome ∨ explicit_end.isSome then
          (explicit_start, explicit_end)
        else (llm_start, llm_end)
      else (some s, some e)
    | start_time, end_time => (start_time, end_time)

/-- An instant lies in a time window when it is at or after a present start
bound and at or before a present end bound (absent bounds are unbounded). -/
def memWindow (w : Option ℤ × Option ℤ) (t : ℤ) : Prop :=
  (∀ s ∈ w.1, s ≤ t) ∧ (∀ e ∈ w.2, t ≤ e)

/-! ## Batch write buffer (`BatchWriteBuffer`, lines 121–212)

The buffer is protected by a lock, so `add_frame`, the ticker body and
`_flush_buffer` are embedded as atomic steps on an explicit state. Instants
are rationals (`time.time()` seconds). The storage backends are parameters:
`store_frames_batch` follows its declared interface (returns a success flag),
while the per-entry SQLite write may raise, embedded as `Except`. The image
payloads, embeddings and metadata carried by `frame_data` are irrelevant to
the buffer logic and are not modelled. -/

/-- The fields of the `frame_data` dict relevant to the embedded pipeline. -/
structure FrameData where
  frame_id : String
  timestamp : ℤ
  image_path : String
  ocr_text : String
  ocr_text_json : String
  ocr_engine : String
  deriving DecidableEq, Repr

/-- Mutable state of `BatchWriteBuffer`. -/
structure BatchWriteBuffer where
  batch_size : ℕ
  flush_interval : ℚ
  buffer : List FrameData
  last_flush_time : ℚ
  deriving DecidableEq, Repr

/-- The externally visible writes and logged errors of one buffer operation. -/
structure WriteLog where
  vector_batches : List (List FrameData)
  sqlite_attempts : List FrameData
  errors : List String
  deriving DecidableEq, Repr

/-- The empty log: no writes performed, nothing logged. -/
def WriteLog.empty : WriteLog := ⟨[], [], []⟩

/-- The per-entry SQLite loop of `_flush_buffer`: each entry's
`store_frame_with_ocr` call sits in its own `try/except`, so a failure is
logged and the loop continues with the remaining entries. Returns the
attempted entries in order and the logged errors. -/
def sqliteWriteLoop (store_frame_with_ocr : FrameData → Except String Unit) :
    List FrameData → List FrameData × List String
  | [] => ([], [])
  | f :: fs =>
    let rest := sqliteWriteLoop store_frame_with_ocr fs
    match store_frame_with_ocr f with
    | .ok _ => (f :: rest.1, rest.2)
    | .error e => (f :: rest.1, ("sqlite write failed " ++ f.frame_id ++ ": " ++ e) :: rest.2)

/-- Embeds `_flush_buffer`: under the lock, if the buffer is empty return (a no-op);
otherwise swap the contents out, clear the buffer and reset the flush timer,
then — outside the lock — issue one batched `store_frames_batch` call for the
whole batch (logging when it reports failure) followed by the per-entry
SQLite loop. -/
def flushBuffer (store_frames_batch : List FrameData → Bool)
    (store_frame_with_ocr : FrameData → Except String Unit)
    (b : BatchWriteBuffer) (now : ℚ) : BatchWriteBuffer × WriteLog :=
  if b.buffer = [] then (b, WriteLog.empty)
  else
    let frames_to_write := b.buffer
    let b' := { b with buffer := [], last_flush_time := now }
    let success := store_frames_batch frames_to_write
    let sq := sqliteWriteLoop store_frame_with_ocr frames_to_write
    (b', { vector_batches := [frames_to_write],
           sqlite_attempts := sq.1,
           errors := (if success then [] else ["batch vector write failed"]) ++ sq.2 })

/-- Embeds `add_frame`: append the frame to the buffer under the lock; when the
buffer size has reached `batch_size`, perform the flush synchronously before
returning. -/
def addFrame (store_frames_batch : List FrameData → Bool)
    (store_frame_with_ocr : FrameData → Except String Unit)
    (b : BatchWriteBuffer) (now : ℚ) (frame_data : FrameData) :
    BatchWriteBuffer × WriteLog :=
  let b1 := { b with buffer := b.buffer ++ [frame_data] }
  let should_flush := b.batch_size ≤ b1.buffer.length
  if should_flush then flushBuffer store_frames_batch store_frame_with_ocr b1 now
  else (b1, WriteLog.empty)

/-- One iteration of the `_periodic_flush` ticker body, observed at instant
`now`: under the lock compute the elapsed time since the last flush, and
flush when it has reached `flush_interval` and the buffer is non-empty. -/
def periodicFlushTick (store_frames_batch : List FrameData → Bool)
    (store_frame_with_ocr : FrameData → Except String Unit)
    (b : BatchWriteBuffer) (now : ℚ) : BatchWriteBuffer × WriteLog :=
  if b.flush_interval ≤ now - b.last_flush_time ∧ 0 < b.buffer.length then
    flushBuffer store_frames_batch store_frame_with_ocr b now
  else (b, WriteLog.empty)

/-! ## Dedup filter (`RecordWorker._should_keep_frame`, lines 213–225)

The image type and the normalized RMS diff (`calculate_normalized_rms_diff`,
an external collaborator scoring in `[0,1]`) are parameters. The baseline
`last_frame_image` is owned by the single capture loop. -/

/-- Embeds `_should_keep_frame`: keep unconditionally when no baseline exists,
storing the candidate as the baseline; otherwise keep exactly when the diff
against the baseline is not below the threshold, replacing the baseline only
on keep. Returns the decision and the new `last_frame_image`. -/
def shouldKeepFrame {Img : Type} (diff : Img → Img → ℚ) (threshold : ℚ)
    (last_frame_image : Option Img) (image : Img) : Bool × Option Img :=
  match last_frame_image with
  | none => (true, some image)
  | some prev =>
    if diff prev image < threshold then (false, some prev)
    else (true, some image)

/-- One processed frame of the capture loop: the baseline it was compared
against, the frame itself, and the keep decision. -/
structure FilterStep (Img : Type) where
  baseline : Option Img
  frame : Img
  kept : Bool

/-- The capture loop's repeated `_should_keep_frame` calls over a list of
candidate frames, recording each decision with the baseline used. -/
def filterTrace {Img : Type} (diff : Img → Img → ℚ) (threshold : ℚ) :
    Option Img → List Img → List (FilterStep Img)
  | _, [] => []
  | last, x :: xs =>
    let r := shouldKeepFrame diff threshold last x
    ⟨last, x, r.1⟩ :: filterTrace diff threshold r.2 xs

/-- The frames the filter keeps, in order. -/
def keptFrames {Img : Type} (diff : Img → Img → ℚ) (threshold : ℚ) :
    Option Img → List Img → List Img
  | _, [] => []
  | last, x :: xs =>
    let r := shouldKeepFrame diff threshold last x
    if r.1 then x :: keptFrames diff threshold r.2 xs
    else keptFrames diff threshold r.2 xs

/-! ## Frame-id allocation (`store_frame`, lines 501–538;
`RecordWorker._generate_frame_id`, lines 227–236)

`frame_id` is `ts.strftime("%Y%m%d_%H%M%S_") + f"{ts.microsecond:06d}"`.
On the server, if the image file for the candidate id already exists, the
microsecond component is incremented by 1 (capped at 999999) and the probe
repeats while the candidate's file exists. Filenames embed the full calendar
second, so only files of the same second can collide; the set of existing
files is embedded as the list of taken microsecond values for that second.
The `while` loop has no termination guarantee in the source (the cap makes
the candidate stop changing), so it is embedded with fuel. -/

/-- The fields of a Python `datetime` needed for `strftime`-based ids. -/
structure PyDateTime where
  year : ℕ
  month : ℕ
  day : ℕ
  hour : ℕ
  minute : ℕ
  second : ℕ
  microsecond : ℕ
  deriving DecidableEq, Repr

/-- Zero-padded decimal rendering, as in `%Y`/`%m`/…/`%06d`. -/
def padNum (width n : ℕ) : String :=
  let s := toString n
  String.mk (List.replicate (width - s.length) '0') ++ s

/-- Embeds the id format `%Y%m%d_%H%M%S_` plus the six-digit microsecond — the frame id
and image basename (identical logic in `RecordWorker._generate_frame_id`). -/
def strftimeFrameId (ts : PyDateTime) : String :=
  padNum 4 ts.year ++ padNum 2 ts.month ++ padNum 2 ts.day ++ "_" ++
    padNum 2 ts.hour ++ padNum 2 ts.minute ++ padNum 2 ts.second ++ "_" ++
    padNum 6 ts.microsecond

/-- The collision `while` loop of `store_frame`: candidate microsecond
`min(micro + counter, 999999)`; if its slot is used, retry with
`counter + 1`. `none` models the loop not having terminated within `fuel`
iterations. -/
def allocProbe (used : List ℕ) (micro : ℕ) : ℕ → ℕ → Option ℕ
  | _, 0 => none
  | counter, fuel + 1 =>
    let adjusted_microsecond := min (micro + counter) 999999
    if adjusted_microsecond ∈ used then allocProbe used micro (counter + 1) fuel
    else some adjusted_microsecond

/-- Microsecond allocation of `store_frame`: the base microsecond when its
slot is unused, otherwise the probe starting at `counter = 1`. -/
def allocateMicro (used : List ℕ) (micro : ℕ) (fuel : ℕ) : Option ℕ :=
  if micro ∈ used then allocProbe used micro 1 fuel else some micro

/-- Embeds `k` successive `store_frame` calls whose timestamps all collide at the
same microsecond `micro` of the same second: each allocated id's slot becomes
used for the next call. Returns the allocated microseconds, newest first
consed, in call order. -/
def allocateSeq (used : List ℕ) (micro : ℕ) (fuel : ℕ) : ℕ → Option (List ℕ)
  | 0 => some []
  | k + 1 =>
    match allocateMicro used micro fuel with
    | none => none
    | some r => (allocateSeq (r :: used) micro fuel k).map (r :: ·)

/-! ## `store_frame` endpoint (lines 486–576) and error handling (C9, C10)

`datetime.fromisoformat(req.timestamp)` is an external call whose outcome is
a parameter (`Except`): on failure the handler logs and re-raises the bare
exception (`raise`), which FastAPI surfaces as an unhandled server error, not
an `HTTPException`. On success the handler decodes and saves the image,
allocates the timestamp-derived frame id (ignoring `req.frame_id`), and adds
the entry to the batch buffer. Image decoding/saving and the buffer add are
not modelled here; the result carries the persisted `frame_id`. -/

/-- Outcome of an HTTP handler: a value, an `HTTPException` with a status
code, or an uncaught exception (surfaced by FastAPI as a server error). -/
inductive ApiResult (α : Type) where
  | ok (value : α)
  | httpError (status_code : ℕ) (detail : String)
  | unhandled (detail : String)
  deriving DecidableEq, Repr

/-- The `StoreFrameRequest` body as the handler consumes it: the client-supplied
`frame_id`, the outcome of `fromisoformat` on the `timestamp` string, and the
base64 image payload. -/
structure StoreFrameRequest where
  frame_id : String
  timestamp_parse : Except String PyDateTime
  image_base64 : String

/-- The `store_frame` handler: an unparseable timestamp re-raises (uncaught);
otherwise the persisted id is the timestamp-derived, collision-adjusted one.
`none` models the collision loop not terminating. -/
def store_frame (used : List ℕ) (fuel : ℕ) (req : StoreFrameRequest) :
    Option (ApiResult String) :=
  match req.timestamp_parse with
  | .error e => some (.unhandled e)
  | .ok ts =>
    match allocateMicro used ts.microsecond fuel with
    | none => none
    | some m => some (.ok (strftimeFrameId { ts with microsecond := m }))

/-- The invalid-input path of `get_frames_by_date` (lines 988–1059): a
`ValueError` from `datetime.fromisoformat(req.date)` is caught and turned
into an `HTTPException` with status 400. The success branch (the SQLite
query) is abstracted as the parsed value. -/
def get_frames_by_date (date_parse : Except String PyDateTime) :
    ApiResult PyDateTime :=
  match date_parse with
  | .ok d => .ok d
  | .error e => .httpError 400 ("Invalid date format: " ++ e)

/-! ## OCR dispatcher and local ingest pipeline
(`RecordWorker`, lines 143–255 and 257–367)

`_init_ocr` creates `queue.Queue(maxsize=100)`; `_enqueue_ocr_task` uses
`put(block=False)` inside `try/except`, so a full queue drops the task and
logs instead of blocking or raising. The local-mode loop body for a kept
frame is: store to main storage, store basics to SQLite with OCR fields
`"pending"`, then enqueue the OCR task; `_ocr_worker` dequeues, recognizes
and writes the OCR result. Queue tasks are opaque dicts, embedded as a type
parameter where only the queue semantics matter. -/

/-- The OCR queue capacity configured in `_init_ocr`. -/
def ocrQueueMaxsize : ℕ := 100

/-- Embeds `_enqueue_ocr_task` on the bounded queue: no-op when OCR is off; enqueue
when below capacity; drop (and log) when full. Returns the new queue and the
accepted flag; it is a total function — the `queue.Full` case is caught. -/
def enqueueOcrTask {α : Type} (use_ocr : Bool) (ocr_queue : List α) (task : α) :
    List α × Bool :=
  if use_ocr = false then (ocr_queue, false)
  else if ocr_queue.length < ocrQueueMaxsize then (ocr_queue ++ [task], true)
  else (ocr_queue, false)

/-- A producer issuing submissions in order, faster than any drain (no worker
runs in between). Returns the final queue and each task's accepted flag. -/
def submitAll {α : Type} (use_ocr : Bool) (ocr_queue : List α) :
    List α → List α × List (α × Bool)
  | [] => (ocr_queue, [])
  | t :: ts =>
    let r := enqueueOcrTask use_ocr ocr_queue t
    let rest := submitAll use_ocr r.1 ts
    (rest.1, (t, r.2) :: rest.2)

/-- Observable events of the ingest pipelines, identified by `frame_id`. -/
inductive IngestEvent where
  | storeMain (frame_id : String)
  | storeSqlitePending (frame_id : String)
  | enqueueOcr (frame_id : String)
  | dropOcr (frame_id : String)
  | ocrRecognize (frame_id : String)
  | ocrWrite (frame_id : String)
  | queueForStorage (frame_id : String)
  deriving DecidableEq, Repr

/-- State of the local-mode recording pipeline: frames not yet processed by
the capture loop, the OCR queue contents, and the event trace so far. -/
structure PipelineState where
  pending_frames : List String
  ocr_queue : List String
  trace : List IngestEvent

/-- One kept-frame iteration of the local branch of `start_recording`:
store to main storage, store the SQLite row with `"pending"` OCR fields, then
try to enqueue the OCR task (dropping and logging when the queue is full). -/
def stepIngest : PipelineState → PipelineState
  | ⟨[], q, tr⟩ => ⟨[], q, tr⟩
  | ⟨fid :: rest, q, tr⟩ =>
    if q.length < ocrQueueMaxsize then
      ⟨rest, q ++ [fid],
        tr ++ [.storeMain fid, .storeSqlitePending fid, .enqueueOcr fid]⟩
    else
      ⟨rest, q, tr ++ [.storeMain fid, .storeSqlitePending fid, .dropOcr fid]⟩

/-- One `_ocr_worker` iteration: dequeue a task, recognize, and write the OCR
result into SQLite. -/
def stepWorker : PipelineState → PipelineState
  | ⟨p, [], tr⟩ => ⟨p, [], tr⟩
  | ⟨p, fid :: rest, tr⟩ => ⟨p, rest, tr ++ [.ocrRecognize fid, .ocrWrite fid]⟩

/-- An interleaving of the capture loop (`true`) and the OCR worker
(`false`), fixed by a schedule. -/
def runSchedule (s : PipelineState) : List Bool → PipelineState
  | [] => s
  | true :: bs => runSchedule (stepIngest s) bs
  | false :: bs => runSchedule (stepWorker s) bs

/-- The events of the backend `store_frame` handler for one request, in
source order: when the OCR engine is available, `recognize` runs
synchronously (lines 543–556) before the entry is added to the batch write
buffer (line 573). -/
def storeFrameEvents (ocr_available : Bool) (fid : String) : List IngestEvent :=
  (if ocr_available then [IngestEvent.ocrRecognize fid] else []) ++
    [IngestEvent.queueForStorage fid]

/-- The ordering property claimed of every ingested frame: any OCR
recognition or OCR result write for a frame occurs only after that frame's
entry was stored/queued for durable storage. -/
def pendingThenOcr (tr : List IngestEvent) : Prop :=
  ∀ (n : ℕ) (fid : String), (tr[n]? = some (IngestEvent.ocrRecognize fid) ∨
      tr[n]? = some (IngestEvent.ocrWrite fid)) →
    ∃ m : ℕ, m < n ∧ (tr[m]? = some (IngestEvent.storeSqlitePending fid) ∨
      tr[m]? = some (IngestEvent.queueForStorage fid))

/-- Every frame sitting in the OCR queue already has its SQLite row stored
with pending OCR fields (it was enqueued right after `_store_to_sqlite`). -/
def queueStored (s : PipelineState) : Prop :=
  ∀ fid ∈ s.ocr_queue, IngestEvent.storeSqlitePending fid ∈ s.trace

end VisualMem

/-! # Theorems -/

namespace VisualMem

/-! ## Merge and dedup lemmas -/

theorem mergeLoop_eq (rs : List SearchResult) :
    ∀ frames seen, mergeLoop frames seen rs =
      (frames ++ dedupFrames seen rs, (dedupFrames seen rs).reverse.map (·.frame_id) ++ seen) := by
  induction rs with
  | nil => intro frames seen; simp [mergeLoop, dedupFrames]
  | cons r rs ih =>
    intro frames seen
    by_cases h : r.frame_id = "" ∨ r.frame_id ∈ seen
    · simp [mergeLoop, dedupFrames, h, ih]
    · simp [mergeLoop, dedupFrames, h, ih]

/-- The two-pass merge equals a single dedup pass over the concatenation. -/
theorem mergeDedup_eq (dense sparse : List SearchResult) :
    mergeDedup dense sparse = dedupFrames [] (dense ++ sparse) := by
  have hcat : ∀ seen xs ys, dedupFrames seen (xs ++ ys) =
      dedupFrames seen xs ++
        dedupFrames ((dedupFrames seen xs).reverse.map (·.frame_id) ++ seen) ys := by
    intro seen xs
    induction xs generalizing seen with
    | nil => intro ys; simp [dedupFrames]
    | cons r rs ih =>
      intro ys
      by_cases h : r.frame_id = "" ∨ r.frame_id ∈ seen
      · simp [dedupFrames, h, ih]
      · simp [dedupFrames, h, ih]
  simp [mergeDedup, mergeLoop_eq, hcat]

/-- Each merge pass produces a sublist of its input (order preserved, no
invention of results). -/
theorem dedupFrames_sublist (rs : List SearchResult) :
    ∀ seen, List.Sublist (dedupFrames seen rs) rs := by
  induction rs with
  | nil => intro seen; simp [dedupFrames]
  | cons r rs ih =>
    intro seen
    by_cases h : r.frame_id = "" ∨ r.frame_id ∈ seen
    · simp only [dedupFrames, if_pos h]
      exact (ih seen).cons r
    · simp only [dedupFrames, if_neg h]
      exact (ih _).cons₂ r

/-- Identifiers already in `seen` never appear in the output of a pass. -/
theorem dedupFrames_not_mem_seen (rs : List SearchResult) :
    ∀ seen r, r ∈ dedupFrames seen rs → r.frame_id ∉ seen := by
  induction rs with
  | nil => intro seen r h; simp [dedupFrames] at h
  | cons x xs ih =>
    intro seen r h
    by_cases hx : x.frame_id = "" ∨ x.frame_id ∈ seen
    · exact ih seen r (by simpa [dedupFrames, hx] using h)
    · simp only [dedupFrames, if_neg hx, List.mem_cons] at h
      rcases h with rfl | h
      · exact fun hc => hx (Or.inr hc)
      · have := ih _ r h
        exact fun hc => this (List.mem_cons_of_mem _ hc)

/-- The identifiers in the output of a pass are pairwise distinct. -/
theorem dedupFrames_nodup (rs : List SearchResult) :
    ∀ seen, ((dedupFrames seen rs).map (·.frame_id)).Nodup := by
  induction rs with
  | nil => intro seen; simp [dedupFrames]
  | cons x xs ih =>
    intro seen
    by_cases hx : x.frame_id = "" ∨ x.frame_id ∈ seen
    · simpa [dedupFrames, hx] using ih seen
    · simp only [dedupFrames, if_neg hx, List.map_cons, List.nodup_cons]
      refine ⟨?_, ih _⟩
      intro hmem
      rcases List.mem_map.mp hmem with ⟨r, hr, hid⟩
      exact dedupFrames_not_mem_seen xs _ r hr (by simp [hid])

/-- A pass never emits results whose identifier is empty. -/
theorem dedupFrames_ne_empty (rs : List SearchResult) :
    ∀ seen r, r ∈ dedupFrames seen rs → r.frame_id ≠ "" := by
  induction rs with
  | nil => intro seen r h; simp [dedupFrames] at h
  | cons x xs ih =>
    intro seen r h
    by_cases hx : x.frame_id = "" ∨ x.frame_id ∈ seen
    · exact ih seen r (by simpa [dedupFrames, hx] using h)
    · simp only [dedupFrames, if_neg hx, List.mem_cons] at h
      rcases h with rfl | h
      · exact fun hc => hx (Or.inl hc)
      · exact ih _ r h

/-- First occurrence wins: for any nonempty identifier not yet seen, the hit
the merge keeps for it is the first input hit carrying it. -/
theorem dedupFrames_find (rs : List SearchResult) :
    ∀ seen f, f ≠ "" → f ∉ seen →
      (dedupFrames seen rs).find? (fun r => r.frame_id = f) =
        rs.find? (fun r => r.frame_id = f) := by
  induction rs with
  | nil => intro seen f _ _; simp [dedupFrames]
  | cons x xs ih =>
    intro seen f hf hfs
    by_cases hx : x.frame_id = "" ∨ x.frame_id ∈ seen
    · have hne : ¬ (x.frame_id = f) := by
        rcases hx with hx | hx
        · intro hc; exact hf (hc ▸ hx)
        · intro hc; exact hfs (hc ▸ hx)
      rw [dedupFrames, if_pos hx, List.find?_cons_of_neg _ (by simpa using hne),
        ih seen f hf hfs]
    · by_cases hxf : x.frame_id = f
      · rw [dedupFrames, if_neg hx, List.find?_cons_of_pos _ (by simpa using hxf),
          List.find?_cons_of_pos _ (by simpa using hxf)]
      · have hnotm : f ∉ x.frame_id :: seen := by
          simp only [List.mem_cons]
          rintro (h | h)
          · exact hxf h.symm
          · exact hfs h
        rw [dedupFrames, if_neg hx, List.find?_cons_of_neg _ (by simpa using hxf),
          List.find?_cons_of_neg _ (by simpa using hxf), ih _ f hf hnotm]

/-! ## Time-fusion lemmas -/

theorem memWindow_combine (explicit_start explicit_end llm_start llm_end : Option ℤ)
    (t : ℤ) :
    memWindow (combineStart explicit_start llm_start,
               combineEnd explicit_end llm_end) t ↔
      memWindow (explicit_start, explicit_end) t ∧
      memWindow (llm_start, llm_end) t := by
  rcases explicit_start with _ | a <;> rcases llm_start with _ | b <;>
    rcases explicit_end with _ | c <;> rcases llm_end with _ | d <;>
      simp [memWindow, combineStart, combineEnd] <;> omega

/-- When the combined window is not inverted, fusion returns exactly the
combined bounds. -/
theorem fuseTimeWindow_eq_combine (explicit_start explicit_end llm_start llm_end : Option ℤ)
    (h : ∀ s e, combineStart explicit_start llm_start = some s →
      combineEnd explicit_end llm_end = some e → s ≤ e) :
    fuseTimeWindow explicit_start explicit_end (some (llm_start, llm_end)) =
      (combineStart explicit_start llm_start, combineEnd explicit_end llm_end) := by
  cases hcs : combineStart explicit_start llm_start with
  | none => cases hce : combineEnd explicit_end llm_end <;>
      simp [fuseTimeWindow, hcs, hce]
  | some s =>
    cases hce : combineEnd explicit_end llm_end with
    | none => simp [fuseTimeWindow, hcs, hce]
    | some e =>
      have hle := h s e hcs hce
      simp [fuseTimeWindow, hcs, hce, not_lt.mpr hle]

/-! ## Batch write buffer lemmas -/

/-- Every entry of the batch is attempted against SQLite, independently of any
per-entry failures. -/
theorem sqliteWriteLoop_attempts (store_frame_with_ocr : FrameData → Except String Unit)
    (fs : List FrameData) :
    (sqliteWriteLoop store_frame_with_ocr fs).1 = fs := by
  induction fs with
  | nil => rfl
  | cons f fs ih =>
    cases h : store_frame_with_ocr f <;> simp [sqliteWriteLoop, h, ih]

/-- A failing per-entry SQLite write is logged. -/
theorem sqliteWriteLoop_error_logged (store_frame_with_ocr : FrameData → Except String Unit)
    (fs : List FrameData) (f : FrameData) (e : String)
    (hf : f ∈ fs) (he : store_frame_with_ocr f = .error e) :
    ("sqlite write failed " ++ f.frame_id ++ ": " ++ e) ∈
      (sqliteWriteLoop store_frame_with_ocr fs).2 := by
  induction fs with
  | nil => simp at hf
  | cons g gs ih =>
    rcases List.mem_cons.mp hf with rfl | hmem
    · simp [sqliteWriteLoop, he]
    · cases h : store_frame_with_ocr g <;>
        simp [sqliteWriteLoop, h, ih hmem]

/-- A flush always leaves the buffer empty (it is already empty in the no-op
branch, and the swap clears it otherwise). -/
theorem flushBuffer_buffer_empty (vec : List FrameData → Bool)
    (sq : FrameData → Except String Unit) (b : BatchWriteBuffer) (now : ℚ) :
    (flushBuffer vec sq b now).1.buffer = [] := by
  by_cases h : b.buffer = [] <;> simp [flushBuffer, h]

/-! ## Dedup-filter lemmas -/

/-- The baseline is replaced by the candidate exactly on keep. -/
theorem shouldKeepFrame_snd {Img : Type} (diff : Img → Img → ℚ) (threshold : ℚ)
    (last : Option Img) (x : Img) :
    (shouldKeepFrame diff threshold last x).2 =
      if (shouldKeepFrame diff threshold last x).1 then some x else last := by
  cases last with
  | none => simp [shouldKeepFrame]
  | some p => by_cases h : diff p x < threshold <;> simp [shouldKeepFrame, h]

/-- Starting from a kept baseline `b`, the kept frames prefixed with `b` form
a chain in which every consecutive pair differs by at least the threshold. -/
theorem keptFrames_chain {Img : Type} (diff : Img → Img → ℚ) (threshold : ℚ)
    (xs : List Img) :
    ∀ b, List.Chain' (fun a c => threshold ≤ diff a c)
      (b :: keptFrames diff threshold (some b) xs) := by
  induction xs with
  | nil => intro b; simp [keptFrames]
  | cons x xs ih =>
    intro b
    by_cases h : diff b x < threshold
    · simpa [keptFrames, shouldKeepFrame, h] using ih b
    · simp only [keptFrames, shouldKeepFrame, if_neg h, if_true]
      rw [List.chain'_cons]
      exact ⟨not_lt.mp h, ih x⟩

/-- Every step recorded by the filter trace decided `kept` exactly by the
threshold test against its baseline (a missing baseline always keeps). -/
theorem filterTrace_kept_iff {Img : Type} (diff : Img → Img → ℚ) (threshold : ℚ)
    (xs : List Img) :
    ∀ last s, s ∈ filterTrace diff threshold last xs →
      (s.kept = true ↔ s.baseline = none ∨
        ∃ p, s.baseline = some p ∧ threshold ≤ diff p s.frame) := by
  induction xs with
  | nil => intro last s hs; simp [filterTrace] at hs
  | cons x xs ih =>
    intro last s hs
    simp only [filterTrace, List.mem_cons] at hs
    rcases hs with rfl | hs
    · cases last with
      | none => simp [shouldKeepFrame]
      | some p =>
        by_cases h : diff p x < threshold
        · simp [shouldKeepFrame, h, not_le.mpr h]
        · simp [shouldKeepFrame, h, not_lt.mp h]
    · exact ih _ s hs

/-- The baseline recorded for each step is the last kept frame before it:
the first step is compared against the initial baseline, and each next step's
baseline is the previous frame when it was kept, the unchanged baseline when
it was dropped. -/
theorem filterTrace_baseline_law {Img : Type} (diff : Img → Img → ℚ) (threshold : ℚ)
    (xs : List Img) :
    ∀ last,
      ((filterTrace diff threshold last xs).head?.map (·.baseline) = none ∨
       (filterTrace diff threshold last xs).head?.map (·.baseline) = some last) ∧
      List.Chain' (fun s1 s2 =>
        s2.baseline = if s1.kept then some s1.frame else s1.baseline)
        (filterTrace diff threshold last xs) := by
  induction xs with
  | nil => intro last; simp [filterTrace]
  | cons x xs ih =>
    intro last
    refine ⟨Or.inr (by simp [filterTrace]), ?_⟩
    simp only [filterTrace]
    refine List.Chain'.cons' (ih _).2 ?_
    intro s2 hs2
    have hhead := (ih (shouldKeepFrame diff threshold last x).2).1
    have hs2' : (filterTrace diff threshold
        (shouldKeepFrame diff threshold last x).2 xs).head? = some s2 :=
      Option.mem_def.mp hs2
    rcases hhead with hnone | hsome
    · rw [hs2'] at hnone; simp at hnone
    · rw [hs2'] at hsome
      simp only [Option.map_some', Option.some.injEq] at hsome
      simpa [hsome] using shouldKeepFrame_snd diff threshold last x

/-! ## Claims -/

/-- C1: merging dense and sparse search results yields a list in which every
`frame_id` occurs exactly once, every dense-origin hit comes before any
sparse-origin hit (the output splits as a dense part followed by a sparse
part, each an order-preserving sublist of its origin), and when the same
`frame_id` appears in both lists the first (dense) occurrence wins (the
merged entry for any nonempty id is the first hit for it in dense followed by
sparse); in particular dense `[A,B,C]` merged with sparse `[B,D]` equals
`[A,B,C,D]`. -/
theorem merge_dedup_correct (dense sparse : List SearchResult) :
    ((mergeDedup dense sparse).map (·.frame_id)).Nodup ∧
    (∃ d s, mergeDedup dense sparse = d ++ s ∧
      List.Sublist d dense ∧ List.Sublist s sparse ∧
      (∀ r ∈ d, r ∈ dense) ∧ (∀ r ∈ s, r ∈ sparse)) ∧
    (∀ f : String, f ≠ "" →
      (mergeDedup dense sparse).find? (fun r => r.frame_id = f) =
        (dense ++ sparse).find? (fun r => r.frame_id = f)) ∧
    mergeDedup [⟨"A", false⟩, ⟨"B", false⟩, ⟨"C", false⟩]
        [⟨"B", true⟩, ⟨"D", true⟩] =
      [⟨"A", false⟩, ⟨"B", false⟩, ⟨"C", false⟩, ⟨"D", true⟩] := by
  refine ⟨?_, ?_, ?_, by rfl⟩
  · rw [mergeDedup_eq]
    exact dedupFrames_nodup _ []
  · refine ⟨dedupFrames [] dense,
      dedupFrames ((dedupFrames [] dense).reverse.map (·.frame_id)) sparse,
      ?_, dedupFrames_sublist _ _, dedupFrames_sublist _ _,
      fun r hr => (dedupFrames_sublist _ _).mem hr,
      fun r hr => (dedupFrames_sublist _ _).mem hr⟩
    simp [mergeDedup, mergeLoop_eq]
  · intro f hf
    rw [mergeDedup_eq]
    exact dedupFrames_find _ [] f hf (by simp)

theorem merge_dedup_correct_witness :
    (mergeDedup [⟨"A", false⟩, ⟨"B", false⟩, ⟨"C", false⟩]
        [⟨"B", true⟩, ⟨"D", true⟩]).find? (fun r => r.frame_id = "B") =
      (([⟨"A", false⟩, ⟨"B", false⟩, ⟨"C", false⟩] ++ [⟨"B", true⟩, ⟨"D", true⟩] :
        List SearchResult)).find? (fun r => r.frame_id = "B") :=
  (merge_dedup_correct _ _).2.2.1 "B" (by decide)

/-- C2: the effective window is the intersection of the explicit and the
model-inferred windows — semantically, when the combined bounds are not
inverted, an instant lies in the fused window exactly when it lies in both —
and whenever the computed start exceeds the computed end, the explicit window
is used unchanged if either explicit bound is present, otherwise the inferred
window is used as-is; the three concrete examples of the spec hold. -/
theorem time_fusion_correct :
    (∀ explicit_start explicit_end llm_start llm_end : Option ℤ,
      (∀ s e, combineStart explicit_start llm_start = some s →
        combineEnd explicit_end llm_end = some e → s ≤ e) →
      ∀ t : ℤ,
        memWindow (fuseTimeWindow explicit_start explicit_end
          (some (llm_start, llm_end))) t ↔
          memWindow (explicit_start, explicit_end) t ∧
          memWindow (llm_start, llm_end) t) ∧
    (∀ explicit_start explicit_end llm_start llm_end : Option ℤ, ∀ s e : ℤ,
      combineStart explicit_start llm_start = some s →
      combineEnd explicit_end llm_end = some e → e < s →
      fuseTimeWindow explicit_start explicit_end (some (llm_start, llm_end)) =
        if explicit_start.isSome ∨ explicit_end.isSome then
          (explicit_start, explicit_end)
        else (llm_start, llm_end)) ∧
    fuseTimeWindow (some 10) (some 20) (some (some 15, some 25)) =
      (some 15, some 20) ∧
    fuseTimeWindow (some 10) (some 20) (some (some 25, some 30)) =
      (some 10, some 20) ∧
    fuseTimeWindow none none (some (some 5, some 9)) = (some 5, some 9) := by
  refine ⟨?_, ?_, by decide, by decide, by decide⟩
  · intro es ee ls le h t
    rw [fuseTimeWindow_eq_combine es ee ls le h]
    exact memWindow_combine es ee ls le t
  · intro es ee ls le s e hcs hce hlt
    simp [fuseTimeWindow, hcs, hce, hlt]

theorem time_fusion_correct_witness :
    fuseTimeWindow (some 10) (some 20) (some (some 25, some 30)) =
      if (some (10:ℤ)).isSome ∨ (some (20:ℤ)).isSome then
        ((some 10 : Option ℤ), (some 20 : Option ℤ))
      else (some 25, some 30) :=
  time_fusion_correct.2.1 (some 10) (some 20) (some 25) (some 30) 25 20
    (by decide) (by decide) (by decide)

/-- C3: the batch write buffer flushes exactly when (a) after an add the
buffer size reaches `batch_size`, performed synchronously by that add, or
(b) the ticker observes elapsed time since the last flush reaching
`flush_interval` with a non-empty buffer; immediately after a flush the
buffer is empty, and flushing an empty buffer is a no-op. -/
theorem batch_flush_correct (vec : List FrameData → Bool)
    (sq : FrameData → Except String Unit) (b : BatchWriteBuffer) (now : ℚ)
    (f : FrameData) :
    ((addFrame vec sq b now f).1.buffer =
      if b.batch_size ≤ b.buffer.length + 1 then [] else b.buffer ++ [f]) ∧
    ((addFrame vec sq b now f).2.vector_batches =
      if b.batch_size ≤ b.buffer.length + 1 then [b.buffer ++ [f]] else []) ∧
    ((periodicFlushTick vec sq b now).1.buffer =
      if b.flush_interval ≤ now - b.last_flush_time ∧ b.buffer ≠ [] then []
      else b.buffer) ∧
    ((periodicFlushTick vec sq b now).2.vector_batches =
      if b.flush_interval ≤ now - b.last_flush_time ∧ b.buffer ≠ [] then [b.buffer]
      else []) ∧
    ((flushBuffer vec sq b now).1.buffer = []) ∧
    (b.buffer = [] → flushBuffer vec sq b now = (b, WriteLog.empty)) := by
  have hne : b.buffer ++ [f] ≠ [] := by simp
  have hlen : (b.buffer ++ [f]).length = b.buffer.length + 1 := by simp
  refine ⟨?_, ?_, ?_, ?_, flushBuffer_buffer_empty vec sq b now, ?_⟩
  · by_cases h : b.batch_size ≤ b.buffer.length + 1 <;>
      simp [addFrame, flushBuffer, WriteLog.empty, hlen, hne, h]
  · by_cases h : b.batch_size ≤ b.buffer.length + 1 <;>
      simp [addFrame, flushBuffer, WriteLog.empty, hlen, hne, h]
  · rcases hb : b.buffer with _ | ⟨x, rest⟩
    · simp [periodicFlushTick, flushBuffer, WriteLog.empty, hb]
    · by_cases h : b.flush_interval ≤ now - b.last_flush_time
      · simp [periodicFlushTick, flushBuffer, WriteLog.empty, hb, h]
      · simp [periodicFlushTick, flushBuffer, WriteLog.empty, hb, h]
  · rcases hb : b.buffer with _ | ⟨x, rest⟩
    · simp [periodicFlushTick, flushBuffer, WriteLog.empty, hb]
    · by_cases h : b.flush_interval ≤ now - b.last_flush_time
      · simp [periodicFlushTick, flushBuffer, WriteLog.empty, hb, h]
      · simp [periodicFlushTick, flushBuffer, WriteLog.empty, hb, h]
  · intro h; simp [flushBuffer, h]

theorem batch_flush_correct_witness :
    flushBuffer (fun _ => true) (fun _ => Except.ok ())
      ⟨10, 60, [], 0⟩ 5 = (⟨10, 60, [], 0⟩, WriteLog.empty) :=
  (batch_flush_correct (fun _ => true) (fun _ => Except.ok ())
    ⟨10, 60, [], 0⟩ 5 ⟨"f", 0, "p", "", "", "pending"⟩).2.2.2.2.2 rfl

/-- C6: a flush of a non-empty buffer issues exactly one batched write of the
whole batch to the vector index and one per-entry write to the SQLite index
for each entry; a reported failure of the batched vector write is logged and
the per-entry writes are attempted regardless of the batched write's outcome,
and a failing per-entry write is caught and logged without aborting the
remaining entries (every entry is attempted). -/
theorem flush_write_isolation (vec vec2 : List FrameData → Bool)
    (sq : FrameData → Except String Unit) (b : BatchWriteBuffer) (now : ℚ)
    (h : b.buffer ≠ []) :
    ((flushBuffer vec sq b now).2.vector_batches = [b.buffer]) ∧
    ((flushBuffer vec sq b now).2.sqlite_attempts = b.buffer) ∧
    ((flushBuffer vec sq b now).2.sqlite_attempts =
      (flushBuffer vec2 sq b now).2.sqlite_attempts) ∧
    (vec b.buffer = false →
      "batch vector write failed" ∈ (flushBuffer vec sq b now).2.errors) ∧
    (∀ f ∈ b.buffer, ∀ e, sq f = .error e →
      ("sqlite write failed " ++ f.frame_id ++ ": " ++ e) ∈
        (flushBuffer vec sq b now).2.errors) := by
  refine ⟨by simp [flushBuffer, h], ?_, ?_, ?_, ?_⟩
  · simp [flushBuffer, h, sqliteWriteLoop_attempts]
  · simp [flushBuffer, h, sqliteWriteLoop_attempts]
  · intro hvec
    simp [flushBuffer, h, hvec]
  · intro f hf e he
    have := sqliteWriteLoop_error_logged sq b.buffer f e hf he
    by_cases hvec : vec b.buffer <;> simp [flushBuffer, h, hvec, this]

theorem flush_write_isolation_witness :
    ("batch vector write failed" ∈
      (flushBuffer (fun _ => false) (fun _ => Except.error "disk full")
        ⟨10, 60, [⟨"f0", 0, "p", "", "", "pending"⟩], 0⟩ 1).2.errors) ∧
    (("sqlite write failed " ++ "f0" ++ ": " ++ "disk full") ∈
      (flushBuffer (fun _ => false) (fun _ => Except.error "disk full")
        ⟨10, 60, [⟨"f0", 0, "p", "", "", "pending"⟩], 0⟩ 1).2.errors) := by
  have h := flush_write_isolation (fun _ => false) (fun _ => false)
    (fun _ => Except.error "disk full")
    ⟨10, 60, [⟨"f0", 0, "p", "", "", "pending"⟩], 0⟩ 1 (by decide)
  exact ⟨h.2.2.2.1 rfl,
    h.2.2.2.2 ⟨"f0", 0, "p", "", "", "pending"⟩ (by decide) "disk full" rfl⟩

/-- C4: the dedup filter keeps the first candidate unconditionally, storing
it as the baseline; a later candidate is kept iff its diff against the last
kept frame is at least the threshold, and the baseline is replaced only on
keep; hence consecutive kept frames differ by at least the threshold, and
each processed frame was compared against the last kept frame (the recorded
baseline follows the kept-frame law), with dropped frames having diff below
the threshold relative to that baseline. -/
theorem dedup_filter_correct {Img : Type} (diff : Img → Img → ℚ) (threshold : ℚ)
    (x : Img) (xs : List Img) (p : Img) (last : Option Img) :
    (shouldKeepFrame diff threshold none x = (true, some x)) ∧
    ((shouldKeepFrame diff threshold (some p) x).1 = true ↔
      threshold ≤ diff p x) ∧
    ((shouldKeepFrame diff threshold (some p) x).2 =
      if (shouldKeepFrame diff threshold (some p) x).1 then some x else some p) ∧
    (keptFrames diff threshold none (x :: xs) =
      x :: keptFrames diff threshold (some x) xs) ∧
    (List.Chain' (fun a c => threshold ≤ diff a c)
      (keptFrames diff threshold none (x :: xs))) ∧
    (∀ s ∈ filterTrace diff threshold last xs,
      (s.kept = true ↔ s.baseline = none ∨
        ∃ q, s.baseline = some q ∧ threshold ≤ diff q s.frame)) ∧
    (List.Chain' (fun s1 s2 =>
        s2.baseline = if s1.kept then some s1.frame else s1.baseline)
      (filterTrace diff threshold last xs)) := by
  refine ⟨by simp [shouldKeepFrame], ?_, shouldKeepFrame_snd diff threshold (some p) x,
    by simp [keptFrames, shouldKeepFrame], ?_,
    fun s hs => filterTrace_kept_iff diff threshold xs last s hs,
    (filterTrace_baseline_law diff threshold xs last).2⟩
  · by_cases h : diff p x < threshold
    · simp [shouldKeepFrame, h, not_le.mpr h]
    · simp [shouldKeepFrame, h, not_lt.mp h]
  · simpa [keptFrames, shouldKeepFrame] using keptFrames_chain diff threshold xs x

theorem dedup_filter_correct_witness :
    ((shouldKeepFrame (fun a b => |b - a|) (3 : ℚ) (some 0) 7).1 = true ↔
      (3 : ℚ) ≤ |(7 : ℚ) - 0|) :=
  (dedup_filter_correct (fun a b => |b - a|) 3 7 [] 0 none).2.1

/-! ## Frame-id allocation lemmas -/

/-- Once the microsecond slot 999999 is used, the capped probe candidate
never changes, so the probe fails for every fuel. -/
theorem allocProbe_stuck : ∀ fuel counter,
    allocProbe [999999] 999999 counter fuel = none := by
  intro fuel
  induction fuel with
  | zero => intro c; rfl
  | succ n ih =>
    intro c
    have hmin : min (999999 + c) 999999 = 999999 :=
      Nat.min_eq_right (Nat.le_add_right _ _)
    simp [allocProbe, hmin, ih]

/-- When `used` is exactly the microseconds `micro ≤ x < micro + j` and
`micro + j ≤ 999999`, the probe started at counter `c ≤ j` finds
`micro + j`. -/
theorem allocProbe_finds (used : List ℕ) (micro j : ℕ)
    (hmem : ∀ x, x ∈ used ↔ micro ≤ x ∧ x < micro + j)
    (hj : micro + j ≤ 999999) :
    ∀ fuel c, 1 ≤ c → c ≤ j → j - c < fuel →
      allocProbe used micro c fuel = some (micro + j) := by
  intro fuel
  induction fuel with
  | zero => intro c _ _ h; omega
  | succ n ih =>
    intro c hc1 hcj hfuel
    have hmin : min (micro + c) 999999 = micro + c := Nat.min_eq_left (by omega)
    by_cases hceq : c = j
    · subst hceq
      have hnot : micro + c ∉ used := by rw [hmem]; omega
      simp [allocProbe, hmin, hnot]
    · have hlt : c < j := lt_of_le_of_ne hcj hceq
      have hin : micro + c ∈ used := by rw [hmem]; omega
      simp only [allocProbe, hmin, if_pos hin]
      exact ih (c + 1) (by omega) (by omega) (by omega)

/-- Allocation with the first `j` slots above `micro` used yields
`micro + j`, given enough fuel. -/
theorem allocateMicro_step (used : List ℕ) (micro j fuel : ℕ)
    (hmem : ∀ x, x ∈ used ↔ micro ≤ x ∧ x < micro + j)
    (hj : micro + j ≤ 999999) (hfuel : j ≤ fuel) :
    allocateMicro used micro fuel = some (micro + j) := by
  rcases Nat.eq_zero_or_pos j with rfl | hjpos
  · have hnot : micro ∉ used := by rw [hmem]; omega
    simp [allocateMicro, hnot]
  · have hin : micro ∈ used := by rw [hmem]; omega
    rw [allocateMicro, if_pos hin]
    exact allocProbe_finds used micro j hmem hj fuel 1 le_rfl hjpos (by omega)

/-- Sequential allocation of `k` colliding frames, with the slots
`micro ≤ x < micro + j` already used, allocates `micro + j, …,
micro + j + k - 1` in order. -/
theorem allocateSeq_spec (micro K : ℕ) (hK : micro + K ≤ 1000000) :
    ∀ k j used, j + k = K →
      (∀ x, x ∈ used ↔ micro ≤ x ∧ x < micro + j) →
      allocateSeq used micro K k =
        some ((List.range k).map (fun i => micro + j + i)) := by
  intro k
  induction k with
  | zero => intro j used _ _; simp [allocateSeq]
  | succ n ih =>
    intro j used hjk hmem
    have hstep := allocateMicro_step used micro j K hmem (by omega) (by omega)
    have hmem' : ∀ x, x ∈ (micro + j) :: used ↔ micro ≤ x ∧ x < micro + (j + 1) := by
      intro x
      simp only [List.mem_cons, hmem]
      omega
    simp only [allocateSeq, hstep]
    rw [ih (j + 1) _ (by omega) hmem']
    simp only [Option.map_some', Option.some.injEq]
    rw [List.range_succ_eq_map, List.map_cons, List.map_map]
    refine congrArg _ ?_
    refine List.map_congr_left ?_
    intro a _
    simp [Function.comp]
    omega

/-- C5 (amended): sequential allocation for `K` frames colliding at
microsecond `micro` of the same second yields the `K` distinct identifiers
`micro, micro+1, …, micro+K-1`, each at most 999999, provided
`micro + K ≤ 1000000` (the probe space is not exhausted). -/
theorem alloc_collision_distinct (K micro : ℕ) (h : micro + K ≤ 1000000) :
    allocateSeq [] micro K K = some ((List.range K).map (fun i => micro + i)) ∧
    ((List.range K).map (fun i => micro + i)).Nodup ∧
    (∀ m ∈ (List.range K).map (fun i => micro + i), m ≤ 999999) ∧
    ((List.range K).map (fun i => micro + i)).length = K := by
  refine ⟨?_, ?_, ?_, by simp⟩
  · have hs := allocateSeq_spec micro K h K 0 [] (by omega) (by simp)
    simpa using hs
  · exact List.Nodup.map (fun a b hab => by omega) (List.nodup_range K)
  · intro m hm
    rcases List.mem_map.mp hm with ⟨i, hi, rfl⟩
    have := List.mem_range.mp hi
    omega

theorem alloc_collision_distinct_witness :
    allocateSeq [] 999997 3 3 =
      some ((List.range 3).map (fun i => 999997 + i)) ∧
    ((List.range 3).map (fun i => 999997 + i)).Nodup ∧
    (∀ m ∈ (List.range 3).map (fun i => 999997 + i), m ≤ 999999) ∧
    ((List.range 3).map (fun i => 999997 + i)).length = 3 :=
  alloc_collision_distinct 3 999997 (by omega)

/-- C5 counterexample: two frames colliding at microsecond 999999 never
yield two identifiers — after the first call takes slot 999999, the capped
probe candidate `min(999999 + counter, 999999)` is stuck on the used slot,
so no amount of fuel makes the second call return. -/
theorem alloc_collision_counterexample :
    ¬ ∃ fuel ids, allocateSeq [] 999999 fuel 2 = some ids := by
  rintro ⟨fuel, ids, h⟩
  simp [allocateSeq, allocateMicro, allocProbe_stuck] at h

/-! ## Ingest-pipeline ordering lemmas -/

/-- Appending events that are neither OCR recognitions nor OCR writes
preserves the ordering property. -/
theorem pendingThenOcr_append (tr ext : List IngestEvent)
    (h : pendingThenOcr tr)
    (hext : ∀ ev ∈ ext, ∀ fid, ev ≠ IngestEvent.ocrRecognize fid ∧
      ev ≠ IngestEvent.ocrWrite fid) :
    pendingThenOcr (tr ++ ext) := by
  intro n fid hn
  by_cases hlen : n < tr.length
  · rw [List.getElem?_append_left hlen] at hn
    obtain ⟨m, hm, hm2⟩ := h n fid hn
    have hmlen : m < tr.length := lt_trans hm hlen
    refine ⟨m, hm, ?_⟩
    rw [List.getElem?_append_left hmlen]
    exact hm2
  · exfalso
    push_neg at hlen
    rw [List.getElem?_append_right hlen] at hn
    rcases hn with hn | hn
    · exact (hext _ (List.getElem?_mem hn) fid).1 rfl
    · exact (hext _ (List.getElem?_mem hn) fid).2 rfl

/-- Appending a recognize/write pair for a frame whose SQLite row is already
in the trace preserves the ordering property. -/
theorem pendingThenOcr_worker (tr : List IngestEvent) (fid : String)
    (h : pendingThenOcr tr) (hst : IngestEvent.storeSqlitePending fid ∈ tr) :
    pendingThenOcr (tr ++ [IngestEvent.ocrRecognize fid, IngestEvent.ocrWrite fid]) := by
  obtain ⟨m0, hm0⟩ := List.mem_iff_getElem?.mp hst
  have hm0len : m0 < tr.length := (List.getElem?_eq_some_iff.mp hm0).1
  intro n fid' hn
  by_cases hlen : n < tr.length
  · rw [List.getElem?_append_left hlen] at hn
    obtain ⟨m, hm, hm2⟩ := h n fid' hn
    have hmlen : m < tr.length := lt_trans hm hlen
    refine ⟨m, hm, ?_⟩
    rw [List.getElem?_append_left hmlen]
    exact hm2
  · push_neg at hlen
    rw [List.getElem?_append_right hlen] at hn
    have hfid : fid' = fid := by
      rcases hk : n - tr.length with _ | _ | k <;> rw [hk] at hn <;>
        simp_all
    refine ⟨m0, by omega, Or.inl ?_⟩
    rw [List.getElem?_append_left hm0len, hfid]
    exact hm0

/-- The capture-loop step preserves the ordering invariants. -/
theorem stepIngest_preserves (s : PipelineState)
    (h1 : pendingThenOcr s.trace) (h2 : queueStored s) :
    pendingThenOcr (stepIngest s).trace ∧ queueStored (stepIngest s) := by
  obtain ⟨pend, q, tr⟩ := s
  rcases pend with _ | ⟨fid, rest⟩
  · exact ⟨h1, h2⟩
  · have hext : ∀ ev ∈ [IngestEvent.storeMain fid,
        IngestEvent.storeSqlitePending fid, IngestEvent.enqueueOcr fid],
        ∀ fid' : String, ev ≠ IngestEvent.ocrRecognize fid' ∧
          ev ≠ IngestEvent.ocrWrite fid' := by
      intro ev hev fid'
      simp only [List.mem_cons, List.not_mem_nil, or_false] at hev
      rcases hev with rfl | rfl | rfl <;> exact ⟨by simp, by simp⟩
    have hext' : ∀ ev ∈ [IngestEvent.storeMain fid,
        IngestEvent.storeSqlitePending fid, IngestEvent.dropOcr fid],
        ∀ fid' : String, ev ≠ IngestEvent.ocrRecognize fid' ∧
          ev ≠ IngestEvent.ocrWrite fid' := by
      intro ev hev fid'
      simp only [List.mem_cons, List.not_mem_nil, or_false] at hev
      rcases hev with rfl | rfl | rfl <;> exact ⟨by simp, by simp⟩
    by_cases hq : q.length < ocrQueueMaxsize
    · have hstep : stepIngest ⟨fid :: rest, q, tr⟩ =
        ⟨rest, q ++ [fid], tr ++ [IngestEvent.storeMain fid,
          IngestEvent.storeSqlitePending fid, IngestEvent.enqueueOcr fid]⟩ :=
        if_pos hq
      rw [hstep]
      refine ⟨pendingThenOcr_append tr _ h1 hext, ?_⟩
      intro f hf
      rcases List.mem_append.mp hf with hf | hf
      · exact List.mem_append_left _ (h2 f hf)
      · simp only [List.mem_cons, List.not_mem_nil, or_false] at hf
        subst hf
        exact List.mem_append_right _ (by simp)
    · have hstep : stepIngest ⟨fid :: rest, q, tr⟩ =
        ⟨rest, q, tr ++ [IngestEvent.storeMain fid,
          IngestEvent.storeSqlitePending fid, IngestEvent.dropOcr fid]⟩ :=
        if_neg hq
      rw [hstep]
      refine ⟨pendingThenOcr_append tr _ h1 hext', ?_⟩
      intro f hf
      exact List.mem_append_left _ (h2 f hf)

/-- The OCR-worker step preserves the ordering invariants. -/
theorem stepWorker_preserves (s : PipelineState)
    (h1 : pendingThenOcr s.trace) (h2 : queueStored s) :
    pendingThenOcr (stepWorker s).trace ∧ queueStored (stepWorker s) := by
  obtain ⟨pend, q, tr⟩ := s
  rcases q with _ | ⟨fid, rest⟩
  · exact ⟨h1, h2⟩
  · refine ⟨pendingThenOcr_worker tr fid h1 (h2 fid (List.mem_cons_self _ _)), ?_⟩
    intro f hf
    exact List.mem_append_left _ (h2 f (List.mem_cons_of_mem _ hf))

/-- Any interleaving of the capture loop and the OCR worker preserves the
ordering invariants. -/
theorem runSchedule_invariant (sched : List Bool) :
    ∀ s : PipelineState, pendingThenOcr s.trace ∧ queueStored s →
      pendingThenOcr (runSchedule s sched).trace ∧
        queueStored (runSchedule s sched) := by
  induction sched with
  | nil => intro s h; exact h
  | cons b bs ih =>
    intro s h
    cases b
    · exact ih _ (stepWorker_preserves s h.1 h.2)
    · exact ih _ (stepIngest_preserves s h.1 h.2)

/-- No interleaving ever produces an OCR result write for a frame that is
not pending ingestion, not queued for OCR, and not already written: a frame
whose OCR task was dropped stays without an OCR write forever. -/
theorem runSchedule_no_ocrWrite (sched : List Bool) :
    ∀ (s : PipelineState) (fid : String),
      fid ∉ s.pending_frames → fid ∉ s.ocr_queue →
      IngestEvent.ocrWrite fid ∉ s.trace →
      IngestEvent.ocrWrite fid ∉ (runSchedule s sched).trace := by
  induction sched with
  | nil => intro s fid _ _ h3; exact h3
  | cons b bs ih =>
    intro s fid h1 h2 h3
    obtain ⟨pend, q, tr⟩ := s
    cases b
    · rcases q with _ | ⟨g, rest⟩
      · exact ih _ fid h1 h2 h3
      · have hne : fid ≠ g := fun hc => h2 (hc ▸ List.mem_cons_self _ _)
        have hnr : fid ∉ rest := fun hc => h2 (List.mem_cons_of_mem _ hc)
        refine ih _ fid h1 hnr ?_
        intro hc
        rcases List.mem_append.mp hc with hc | hc
        · exact h3 hc
        · simp only [List.mem_cons, List.not_mem_nil, or_false] at hc
          rcases hc with hc | hc
          · cases hc
          · exact hne (IngestEvent.ocrWrite.inj hc)
    · rcases pend with _ | ⟨g, rest⟩
      · exact ih _ fid h1 h2 h3
      · have hne : fid ≠ g := fun hc => h1 (hc ▸ List.mem_cons_self _ _)
        have hnr : fid ∉ rest := fun hc => h1 (List.mem_cons_of_mem _ hc)
        by_cases hql : q.length < ocrQueueMaxsize
        · have hstep : stepIngest ⟨g :: rest, q, tr⟩ =
            ⟨rest, q ++ [g], tr ++ [IngestEvent.storeMain g,
              IngestEvent.storeSqlitePending g, IngestEvent.enqueueOcr g]⟩ :=
            if_pos hql
          rw [runSchedule, hstep]
          refine ih _ fid hnr ?_ ?_
          · intro hc
            rcases List.mem_append.mp hc with hc | hc
            · exact h2 hc
            · simp only [List.mem_cons, List.not_mem_nil, or_false] at hc
              exact hne hc
          · intro hc
            rcases List.mem_append.mp hc with hc | hc
            · exact h3 hc
            · simp only [List.mem_cons, List.not_mem_nil, or_false] at hc
              rcases hc with hc | hc | hc <;> cases hc
        · have hstep : stepIngest ⟨g :: rest, q, tr⟩ =
            ⟨rest, q, tr ++ [IngestEvent.storeMain g,
              IngestEvent.storeSqlitePending g, IngestEvent.dropOcr g]⟩ :=
            if_neg hql
          rw [runSchedule, hstep]
          refine ih _ fid hnr h2 ?_
          intro hc
          rcases List.mem_append.mp hc with hc | hc
          · exact h3 hc
          · simp only [List.mem_cons, List.not_mem_nil, or_false] at hc
            rcases hc with hc | hc | hc <;> cases hc

set_option maxRecDepth 8000 in
/-- C7: submitting to the OCR dispatcher never blocks and never throws (the
embedded `_enqueue_ocr_task` is a total function whose queue-full branch is
the caught `queue.Full`): the queue capacity is 100, a submission is accepted
exactly when the queue is below capacity (appended at the tail) and dropped
otherwise leaving the queue unchanged; 101 submissions issued with no drain
leave submissions 1–100 enqueued in order and reject submission 101; and a
frame that is not queued and never written stays without an OCR result write
under every continuation, so its stored fields remain `"pending"` with no
retry. -/
theorem ocr_backpressure_correct :
    ocrQueueMaxsize = 100 ∧
    (∀ (α : Type) (q : List α) (t : α),
      (enqueueOcrTask true q t).2 = decide (q.length < 100) ∧
      (enqueueOcrTask true q t).1 = if q.length < 100 then q ++ [t] else q) ∧
    ((submitAll true ([] : List ℕ) (List.range 101)).1 = List.range 100 ∧
     (submitAll true ([] : List ℕ) (List.range 101)).2 =
       (List.range 101).map (fun i => (i, decide (i < 100)))) ∧
    (∀ (sched : List Bool) (s : PipelineState) (fid : String),
      fid ∉ s.pending_frames → fid ∉ s.ocr_queue →
      IngestEvent.ocrWrite fid ∉ s.trace →
      IngestEvent.ocrWrite fid ∉ (runSchedule s sched).trace) := by
  refine ⟨rfl, ?_, ?_, fun sched s fid => runSchedule_no_ocrWrite sched s fid⟩
  · intro α q t
    constructor
    · by_cases h : q.length < 100 <;>
        simp [enqueueOcrTask, ocrQueueMaxsize, h]
    · by_cases h : q.length < 100 <;>
        simp [enqueueOcrTask, ocrQueueMaxsize, h]
  · constructor
    · decide
    · decide

theorem ocr_backpressure_correct_witness :
    IngestEvent.ocrWrite "f" ∉
      (runSchedule ⟨["g"], ["g"], [IngestEvent.dropOcr "f"]⟩ [true, false]).trace :=
  ocr_backpressure_correct.2.2.2 [true, false]
    ⟨["g"], ["g"], [IngestEvent.dropOcr "f"]⟩ "f" (by decide) (by decide) (by decide)

/-- C8 (amended): in the local capture pipeline, under every interleaving of
the capture loop and the OCR worker, a frame's OCR recognition and OCR result
write occur only after the frame's entry was stored in SQLite with pending
placeholders; the backend `store_frame` path instead performs OCR recognition
synchronously before the entry is queued for durable storage. -/
theorem ocr_after_store_local (fids : List String) (sched : List Bool) :
    pendingThenOcr (runSchedule ⟨fids, [], []⟩ sched).trace ∧
    (∀ fid, storeFrameEvents true fid =
      [IngestEvent.ocrRecognize fid, IngestEvent.queueForStorage fid]) := by
  constructor
  · have hinit : pendingThenOcr ([] : List IngestEvent) ∧
        queueStored ⟨fids, [], []⟩ := by
      constructor
      · intro n fid hn
        rcases hn with hn | hn <;> simp at hn
      · intro f hf
        cases hf
    exact (runSchedule_invariant sched ⟨fids, [], []⟩ hinit).1
  · intro fid
    rfl

/-- C8 counterexample: in the backend `store_frame` path with the OCR engine
available, the OCR recognition for a frame happens before the entry is queued
for durable storage, so the claimed store-pending-first ordering fails on
this concrete one-request trace. -/
theorem ocr_after_store_counterexample :
    ¬ pendingThenOcr (storeFrameEvents true "20251201_143025_123456") := by
  intro h
  obtain ⟨m, hm, _⟩ := h 0 "20251201_143025_123456" (Or.inl rfl)
  omega

/-- C9 (documents the divergence): a malformed date in the frame-browsing
endpoint is rejected with a client-error status 400, but an unparseable
timestamp in `store_frame` is re-raised as an uncaught exception — surfaced
as a server error, not a 4xx — contradicting the claim for `store_frame`. -/
theorem invalid_input_status :
    (∀ e : String, get_frames_by_date (.error e) =
      .httpError 400 ("Invalid date format: " ++ e)) ∧
    store_frame [] 10
        ⟨"frame-1", .error "Invalid isoformat string: not-a-timestamp", "img"⟩ =
      some (.unhandled "Invalid isoformat string: not-a-timestamp") ∧
    (∀ e img fid used fuel, ∀ status detail,
      store_frame used fuel ⟨fid, .error e, img⟩ ≠
        some (.httpError status detail)) := by
  refine ⟨fun e => rfl, rfl, ?_⟩
  intro e img fid used fuel status detail h
  simp [store_frame] at h

/-- C10: the identifier persisted by `store_frame` is derived from the
request's timestamp in the format `YYYYMMDD_HHMMSS_ffffff` (collision-
adjusted in the microsecond component when needed), and the `frame_id`
supplied in the request body is ignored: the handler's outcome is identical
for any two request `frame_id` values. -/
theorem store_frame_id_from_timestamp :
    (∀ (used : List ℕ) (fuel : ℕ) (ts : PyDateTime) (fid1 fid2 img1 img2 : String),
      store_frame used fuel ⟨fid1, .ok ts, img1⟩ =
        store_frame used fuel ⟨fid2, .ok ts, img2⟩) ∧
    (∀ (fuel : ℕ) (ts : PyDateTime) (fid img : String),
      store_frame [] fuel ⟨fid, .ok ts, img⟩ =
        some (.ok (strftimeFrameId ts))) ∧
    strftimeFrameId ⟨2025, 12, 1, 14, 30, 25, 123456⟩ = "20251201_143025_123456" ∧
    (∀ (used : List ℕ) (fuel : ℕ) (ts : PyDateTime) (fid img r : String),
      store_frame used fuel ⟨fid, .ok ts, img⟩ = some (.ok r) →
      ∃ m, allocateMicro used ts.microsecond fuel = some m ∧
        r = strftimeFrameId { ts with microsecond := m }) := by
  refine ⟨fun _ _ _ _ _ _ _ => rfl, ?_, rfl, ?_⟩
  · intro fuel ts fid img
    simp [store_frame, allocateMicro]
  · intro used fuel ts fid img r h
    simp only [store_frame] at h
    cases halloc : allocateMicro used ts.microsecond fuel with
    | none => rw [halloc] at h; cases h
    | some m =>
      rw [halloc] at h
      simp only [Option.some.injEq, ApiResult.ok.injEq] at h
      exact ⟨m, rfl, h.symm⟩

theorem store_frame_id_from_timestamp_witness :
    ∃ m, allocateMicro [123456] 123456 2 = some m ∧
      ("20251201_143025_123457" : String) =
        strftimeFrameId { (⟨2025, 12, 1, 14, 30, 25, 123456⟩ : PyDateTime) with
          microsecond := m } :=
  store_frame_id_from_timestamp.2.2.2 [123456] 2 ⟨2025, 12, 1, 14, 30, 25, 123456⟩
    "client-id" "img" "20251201_143025_123457" (by rfl)

end VisualMem
